import Mathlib

/-!
A verification development for the `a1` library: parsing to and from A1
spreadsheet notation ("A1", "Foo!A:D", "C5:D9,G9:H16", ...) together with the
geometric operations (contains, shift, iterate) over the reference model.

The data model and the direct constructors are embedded from `src/lib.rs`.
The implementation modules (`column.rs`, `row.rs`, `address.rs`,
`range_or_cell.rs`, `a1.rs`, `error.rs`) are not part of the provided sources,
so their operations are modelled from the specification (sections 3, 4.1-4.6
and 7 of the spec), pinned wherever possible by the doc-examples and unit
tests that do appear in `src/lib.rs`.
-/

namespace A1Lib

/-- Modelled from the spec: error taxonomy of `error.rs` (spec section 7),
each kind carrying the offending substring. -/
inductive Error where
  | InvalidColumn (s : String)
  | InvalidRow (s : String)
  | InvalidCell (s : String)
  | InvalidSheetName (s : String)
  | InvalidA1 (s : String)
deriving DecidableEq

/-- Modelled from the spec: `Column { absolute: bool, x: usize }` (spec
section 3); `x` is the zero-based column index, `absolute` the `$` lock. -/
structure Column where
  absolute : Bool
  x : Nat
deriving DecidableEq

/-- Modelled from the spec: `Column::new(x)` as pinned by the doc-examples in
`src/lib.rs` (e.g. parsing "A1" yields `Column { absolute: false, x: 0 }`). -/
def Column.new (x : Nat) : Column := { absolute := false, x := x }

/-- Modelled from the spec: `Row { absolute: bool, y: usize }` (spec
section 3); `y` is the zero-based row index, displayed one-based. -/
structure Row where
  absolute : Bool
  y : Nat
deriving DecidableEq

/-- Modelled from the spec: `Row::new(y)` as pinned by the doc-examples. -/
def Row.new (y : Nat) : Row := { absolute := false, y := y }

/-- Modelled from the spec: `Address { column: Column, row: Row }` (spec
section 3), one cell coordinate. -/
structure Address where
  column : Column
  row : Row
deriving DecidableEq

/-- Modelled from the spec: `Address::new(x, y)` as pinned by the doc-examples
(`Address::new(0, 0)` is column 0 / row 0, both non-absolute). -/
def Address.new (x y : Nat) : Address :=
  { column := Column.new x, row := Row.new y }

/-- Modelled from the spec: the closed reference union `RangeOrCell` of
`range_or_cell.rs` (spec section 3). -/
inductive RangeOrCell where
  | Cell (a : Address)
  | Range (frm tto : Address)
  | ColumnRange (frm tto : Column)
  | RowRange (frm tto : Row)
  | NonContiguous (ms : List RangeOrCell)

/-- Modelled from the spec: `RangeOrCell::column(x)`, pinned by the
`tests::column` unit test in `src/lib.rs`: a single column is the degenerate
`ColumnRange` with `from == to`. -/
def RangeOrCell.column (x : Nat) : RangeOrCell :=
  RangeOrCell.ColumnRange (Column.new x) (Column.new x)

/-- Modelled from the spec: `RangeOrCell::column_range(xa, xb)`, pinned by the
`tests::column_range` unit test. -/
def RangeOrCell.column_range (xa xb : Nat) : RangeOrCell :=
  RangeOrCell.ColumnRange (Column.new xa) (Column.new xb)

/-- Modelled from the spec: `RangeOrCell::row(y)`, pinned by the `tests::row`
unit test: a single row is the degenerate `RowRange` with `from == to`. -/
def RangeOrCell.row (y : Nat) : RangeOrCell :=
  RangeOrCell.RowRange (Row.new y) (Row.new y)

/-- Modelled from the spec: `RangeOrCell::row_range(ya, yb)`, pinned by the
`tests::row_range` unit test. -/
def RangeOrCell.row_range (ya yb : Nat) : RangeOrCell :=
  RangeOrCell.RowRange (Row.new ya) (Row.new yb)

/-- The top-level `A1` struct from `src/lib.rs`: optional sheet name plus a
reference. -/
structure A1 where
  sheet_name : Option String
  reference : RangeOrCell

/-- `a1::cell(x, y)` from `src/lib.rs`. -/
def cell (x y : Nat) : A1 :=
  { sheet_name := none, reference := RangeOrCell.Cell (Address.new x y) }

/-- `a1::range(from, to)` from `src/lib.rs` (the `Into<Address>` arguments
taken here as addresses). -/
def range (frm tto : Address) : A1 :=
  { sheet_name := none, reference := RangeOrCell.Range frm tto }

/-- `a1::column(x)` from `src/lib.rs`. -/
def column (x : Nat) : A1 :=
  { sheet_name := none, reference := RangeOrCell.column x }

/-- `a1::column_range(xa, xb)` from `src/lib.rs`. -/
def column_range (xa xb : Nat) : A1 :=
  { sheet_name := none, reference := RangeOrCell.column_range xa xb }

/-- `a1::row(y)` from `src/lib.rs`. -/
def row (y : Nat) : A1 :=
  { sheet_name := none, reference := RangeOrCell.row y }

/-- `a1::row_range(ya, yb)` from `src/lib.rs`. -/
def row_range (ya yb : Nat) : A1 :=
  { sheet_name := none, reference := RangeOrCell.row_range ya yb }

/-- The `ALPHA` table from `src/lib.rs` (lines 209-212). -/
def ALPHA : List Char :=
  ['A', 'B', 'C', 'D', 'E', 'F', 'G', 'H', 'I', 'J', 'K', 'L', 'M', 'N',
   'O', 'P', 'Q', 'R', 'S', 'T', 'U', 'V', 'W', 'X', 'Y', 'Z']

/-! ## Column codec (modelled from the spec, section 4.1) -/

/-- Letter for one bijective base-26 digit (an index into `ALPHA`). -/
def alphaChar (i : Nat) : Char := ALPHA.getD i 'A'

/-- Modelled from the spec: the bijective base-26 encoder of `column.rs`.
`encodeColAux n` is the letter string for the one-based value `n`
(`encodeColAux 0 = []`). -/
def encodeColAux (n : Nat) : List Char :=
  if h : n = 0 then []
  else encodeColAux ((n - 1) / 26) ++ [alphaChar ((n - 1) % 26)]
termination_by n
decreasing_by
  exact Nat.lt_of_le_of_lt (Nat.div_le_self _ _)
    (Nat.sub_lt (Nat.pos_of_ne_zero h) Nat.one_pos)

/-- Modelled from the spec: `encode` of the column codec; index 0 encodes to
"A", 25 to "Z", 26 to "AA". -/
def encodeColChars (x : Nat) : List Char := encodeColAux (x + 1)

/-- True for characters accepted by the column decoder: letters `A`-`Z`,
case-insensitively. -/
def isColChar (c : Char) : Bool :=
  65 ≤ c.toUpper.toNat && c.toUpper.toNat ≤ 90

/-- The bijective base-26 digit value (0-25) of one letter. -/
def azIndex (c : Char) : Nat := c.toUpper.toNat - 65

/-- Accumulating value of a letter string read as bijective base-26. -/
def colVal (l : List Char) : Nat :=
  l.foldl (fun acc c => acc * 26 + (azIndex c + 1)) 0

/-- Modelled from the spec: `decode` of the column codec; fails with
`InvalidColumn` on empty input or characters outside `A`-`Z`
(case-insensitive), and otherwise inverts the bijective base-26 encoding. -/
def decodeColChars (l : List Char) : Except Error Nat :=
  if l = [] then Except.error (Error.InvalidColumn (String.mk l))
  else if l.all isColChar then Except.ok (colVal l - 1)
  else Except.error (Error.InvalidColumn (String.mk l))

/-! ## Row codec (modelled from the spec, section 4.1) -/

/-- The character for a decimal digit value. -/
def decChar (d : Nat) : Char := Char.ofNat (48 + d)

/-- Decimal digit characters `0`-`9`. -/
def isDecChar (c : Char) : Bool := 48 ≤ c.toNat && c.toNat ≤ 57

/-- Accumulating value of a digit string read as decimal. -/
def decVal (l : List Char) : Nat :=
  l.foldl (fun acc c => acc * 10 + (c.toNat - 48)) 0

/-- Modelled from the spec: decimal rendering of a positive number, as
`usize::to_string` produces (`natToDecAux 0 = []`, never used on 0 here). -/
def natToDecAux (n : Nat) : List Char :=
  if h : n = 0 then []
  else natToDecAux (n / 10) ++ [decChar (n % 10)]
termination_by n
decreasing_by
  exact Nat.div_lt_self (Nat.pos_of_ne_zero h) (by omega)

/-- Modelled from the spec: `encode` of the row codec: the stored zero-based
`y` renders as the decimal string of `y + 1`. -/
def encodeRowChars (y : Nat) : List Char := natToDecAux (y + 1)

/-- Modelled from the spec: `decode` of the row codec: parses a positive
decimal integer, stores `input - 1`, and fails with `InvalidRow` on empty,
non-numeric or zero input. -/
def decodeRowChars (l : List Char) : Except Error Nat :=
  if l = [] then Except.error (Error.InvalidRow (String.mk l))
  else if l.all isDecChar then
    if decVal l = 0 then Except.error (Error.InvalidRow (String.mk l))
    else Except.ok (decVal l - 1)
  else Except.error (Error.InvalidRow (String.mk l))

/-! ## Formatter (modelled from the spec, section 4.3) -/

/-- The quote character used around non-identifier sheet names. -/
def quoteChar : Char := Char.ofNat 39

/-- Identifier-safe sheet-name characters: letters, digits, underscore. -/
def isIdentChar (c : Char) : Bool := c.isAlphanum || c = '_'

/-- Modelled from the spec: display of one `Column`: `$` iff absolute, then
the bijective base-26 letters. -/
def formatColChars (c : Column) : List Char :=
  (if c.absolute then ['$'] else []) ++ encodeColChars c.x

/-- Modelled from the spec: display of one `Row`: `$` iff absolute, then the
one-based decimal number. -/
def formatRowChars (r : Row) : List Char :=
  (if r.absolute then ['$'] else []) ++ encodeRowChars r.y

/-- Modelled from the spec: display of an `Address`: column letters
immediately followed by the row number. -/
def formatAddrChars (a : Address) : List Char :=
  formatColChars a.column ++ formatRowChars a.row

/-- Modelled from the spec: display of a `RangeOrCell` (spec section 4.3):
two-sided shapes always render with a colon, `NonContiguous` members join
with commas in stored order. -/
def formatRefChars : RangeOrCell → List Char
  | RangeOrCell.Cell a => formatAddrChars a
  | RangeOrCell.Range f t => formatAddrChars f ++ ':' :: formatAddrChars t
  | RangeOrCell.ColumnRange f t => formatColChars f ++ ':' :: formatColChars t
  | RangeOrCell.RowRange f t => formatRowChars f ++ ':' :: formatRowChars t
  | RangeOrCell.NonContiguous ms =>
      List.intercalate [','] (ms.attach.map (fun m => formatRefChars m.1))
decreasing_by
  simp_wf
  have := List.sizeOf_lt_of_mem m.2
  omega

/-- Modelled from the spec: display of the sheet name followed by `!`;
quoted only when it has a character outside letters/digits/underscore. -/
def formatSheetChars (name : List Char) : List Char :=
  (if name.all isIdentChar then name else quoteChar :: (name ++ [quoteChar])) ++ ['!']

/-- Modelled from the spec: `Display for A1` — the full formatter. -/
def formatA1 (a : A1) : String :=
  String.mk
    ((match a.sheet_name with
      | some n => formatSheetChars n.data
      | none => []) ++ formatRefChars a.reference)

/-! ## Parser (modelled from the spec, section 4.2) -/

/-- Split a character list on every occurrence of `c` (like Rust
`str::split`); always returns at least one (possibly empty) piece. -/
def splitOnChar (c : Char) : List Char → List (List Char)
  | [] => [[]]
  | a :: rest =>
    match splitOnChar c rest with
    | [] => [[]]
    | r :: rs => if a = c then [] :: r :: rs else (a :: r) :: rs

/-- Split a character list at the last occurrence of `c`, if any (like Rust
`str::rsplit_once`). -/
def splitOnLast (c : Char) : List Char → Option (List Char × List Char)
  | [] => none
  | a :: rest =>
    match splitOnLast c rest with
    | some (pre, post) => some (a :: pre, post)
    | none => if a = c then some ([], rest) else none

/-- One parsed side of a (possibly two-sided) area token: a column, a row, or
a full cell address. -/
inductive ParsedPart where
  | PCol (c : Column)
  | PRow (r : Row)
  | PAddr (a : Address)

/-- Strip one leading `$` marker, reporting whether it was present. -/
def stripDollar (l : List Char) : Bool × List Char :=
  match l with
  | c :: r => if c = '$' then (true, r) else (false, l)
  | [] => (false, l)

/-- Modelled from the spec: parse one side of an area token against the
grammar `ColPart? RowPart?` where each part is an optional `$` followed by
letters (column) or digits (row); a lone trailing `$` is tolerated per the
grammar's optional trailing `$`, and a bare `$` or leftover characters are
malformed. -/
def parsePart (l : List Char) : Except Error ParsedPart :=
  let p1 := stripDollar l
  let abs1 := p1.1
  let letters := p1.2.takeWhile isColChar
  let r1 := p1.2.dropWhile isColChar
  let p2 := stripDollar r1
  let abs2 := p2.1
  let digits := p2.2.takeWhile isDecChar
  let r3 := p2.2.dropWhile isDecChar
  let r4 := (stripDollar r3).2
  if r4 ≠ [] then Except.error (Error.InvalidA1 (String.mk l))
  else if letters ≠ [] then
    if digits ≠ [] then do
      let x ← decodeColChars letters
      let y ← decodeRowChars digits
      Except.ok (ParsedPart.PAddr { column := { absolute := abs1, x := x },
                                    row := { absolute := abs2, y := y } })
    else do
      let x ← decodeColChars letters
      Except.ok (ParsedPart.PCol { absolute := abs1, x := x })
  else if digits ≠ [] then do
    let y ← decodeRowChars digits
    Except.ok (ParsedPart.PRow { absolute := abs1, y := y })
  else Except.error (Error.InvalidA1 (String.mk l))

/-- Modelled from the spec: parse one comma-free area token: one part, or two
parts separated by `:` which must be of the same kind (column/column,
row/row, cell/cell). -/
def parseToken (l : List Char) : Except Error RangeOrCell :=
  match splitOnChar ':' l with
  | [p] =>
    match parsePart p with
    | Except.ok (ParsedPart.PCol c) => Except.ok (RangeOrCell.ColumnRange c c)
    | Except.ok (ParsedPart.PRow r) => Except.ok (RangeOrCell.RowRange r r)
    | Except.ok (ParsedPart.PAddr a) => Except.ok (RangeOrCell.Cell a)
    | Except.error e => Except.error e
  | [p, q] =>
    match parsePart p, parsePart q with
    | Except.ok (ParsedPart.PCol c1), Except.ok (ParsedPart.PCol c2) =>
        Except.ok (RangeOrCell.ColumnRange c1 c2)
    | Except.ok (ParsedPart.PRow r1), Except.ok (ParsedPart.PRow r2) =>
        Except.ok (RangeOrCell.RowRange r1 r2)
    | Except.ok (ParsedPart.PAddr a1), Except.ok (ParsedPart.PAddr a2) =>
        Except.ok (RangeOrCell.Range a1 a2)
    | Except.error e, _ => Except.error e
    | _, Except.error e => Except.error e
    | _, _ => Except.error (Error.InvalidA1 (String.mk l))
  | _ => Except.error (Error.InvalidA1 (String.mk l))

/-- Modelled from the spec: parse the reference body: split on `,`, parse
each area token, wrap in `NonContiguous` iff more than one. -/
def parseBody (l : List Char) : Except Error RangeOrCell := do
  let rs ← (splitOnChar ',' l).mapM parseToken
  match rs with
  | [r] => Except.ok r
  | rs => Except.ok (RangeOrCell.NonContiguous rs)

/-- Modelled from the spec: validate a sheet name: strip one pair of wrapping
quotes, fail with `InvalidSheetName` when the remainder is empty. -/
def parseSheetChars (l : List Char) : Except Error (List Char) :=
  let core := match l with
    | q :: rest =>
        if q = quoteChar && rest.getLast? = some quoteChar then rest.dropLast
        else l
    | [] => l
  if core = [] then Except.error (Error.InvalidSheetName (String.mk l))
  else Except.ok core

/-- Modelled from the spec: `A1::from_str` — split once on the last `!` for
the sheet name, then parse the reference body. -/
def parseA1 (s : String) : Except Error A1 :=
  match splitOnLast '!' s.data with
  | some (pre, body) => do
      let name ← parseSheetChars pre
      let r ← parseBody body
      Except.ok { sheet_name := some (String.mk name), reference := r }
  | none => do
      let r ← parseBody s.data
      Except.ok { sheet_name := none, reference := r }

/-- `a1::new` from `src/lib.rs`: parse an A1-style string. -/
def new (s : String) : Except Error A1 := parseA1 s

/-! ## Containment (modelled from the spec, section 4.4)

Per spec section 3 the `absolute` flags affect only display, not the value
equality used for containment/geometry, so containment compares `x`/`y`
only.  A `NonContiguous` inner is handled first (conjunctively over its
members), then a `NonContiguous` outer (disjunctively over its members);
this is the composition of the two rules of section 4.4 under which the
reflexivity law of section 8 holds. -/

/-- Modelled from the spec: `RangeOrCell::contains` of `range_or_cell.rs`. -/
def RangeOrCell.contains : RangeOrCell → RangeOrCell → Bool
  | outer, RangeOrCell.NonContiguous ms =>
      ms.attach.all (fun m => RangeOrCell.contains outer m.1)
  | RangeOrCell.NonContiguous ms, inner =>
      ms.attach.any (fun m => RangeOrCell.contains m.1 inner)
  | RangeOrCell.Cell a, RangeOrCell.Cell b =>
      decide (a.column.x = b.column.x ∧ a.row.y = b.row.y)
  | RangeOrCell.Cell _, _ => false
  | RangeOrCell.Range f t, RangeOrCell.Cell b =>
      decide (min f.column.x t.column.x ≤ b.column.x ∧
              b.column.x ≤ max f.column.x t.column.x ∧
              min f.row.y t.row.y ≤ b.row.y ∧
              b.row.y ≤ max f.row.y t.row.y)
  | RangeOrCell.Range f t, RangeOrCell.Range f2 t2 =>
      decide (min f.column.x t.column.x ≤ min f2.column.x t2.column.x ∧
              max f2.column.x t2.column.x ≤ max f.column.x t.column.x ∧
              min f.row.y t.row.y ≤ min f2.row.y t2.row.y ∧
              max f2.row.y t2.row.y ≤ max f.row.y t.row.y)
  | RangeOrCell.Range _ _, _ => false
  | RangeOrCell.ColumnRange f t, RangeOrCell.Cell b =>
      decide (min f.x t.x ≤ b.column.x ∧ b.column.x ≤ max f.x t.x)
  | RangeOrCell.ColumnRange f t, RangeOrCell.Range f2 t2 =>
      decide (min f.x t.x ≤ min f2.column.x t2.column.x ∧
              max f2.column.x t2.column.x ≤ max f.x t.x)
  | RangeOrCell.ColumnRange f t, RangeOrCell.ColumnRange f2 t2 =>
      decide (min f.x t.x ≤ min f2.x t2.x ∧ max f2.x t2.x ≤ max f.x t.x)
  | RangeOrCell.ColumnRange _ _, _ => false
  | RangeOrCell.RowRange f t, RangeOrCell.Cell b =>
      decide (min f.y t.y ≤ b.row.y ∧ b.row.y ≤ max f.y t.y)
  | RangeOrCell.RowRange f t, RangeOrCell.Range f2 t2 =>
      decide (min f.y t.y ≤ min f2.row.y t2.row.y ∧
              max f2.row.y t2.row.y ≤ max f.y t.y)
  | RangeOrCell.RowRange f t, RangeOrCell.RowRange f2 t2 =>
      decide (min f.y t.y ≤ min f2.y t2.y ∧ max f2.y t2.y ≤ max f.y t.y)
  | RangeOrCell.RowRange _ _, _ => false
termination_by o i => sizeOf o + sizeOf i
decreasing_by
  all_goals simp_wf
  all_goals have := List.sizeOf_lt_of_mem m.2
  all_goals omega

/-- Modelled from the spec: `A1::contains` — sheet names are ignored for
containment (spec section 4.4, primary reading). -/
def A1.contains (a other : A1) : Bool :=
  a.reference.contains other.reference

/-! ## Shifting (modelled from the spec, section 4.5) -/

/-- Apply a column transformation and a row transformation to every `Column`
and `Row` of a reference, preserving the variant shape. -/
def RangeOrCell.mapColRow (fc : Column → Column) (fr : Row → Row) :
    RangeOrCell → RangeOrCell
  | RangeOrCell.Cell a => RangeOrCell.Cell { column := fc a.column, row := fr a.row }
  | RangeOrCell.Range f t =>
      RangeOrCell.Range { column := fc f.column, row := fr f.row }
                        { column := fc t.column, row := fr t.row }
  | RangeOrCell.ColumnRange f t => RangeOrCell.ColumnRange (fc f) (fc t)
  | RangeOrCell.RowRange f t => RangeOrCell.RowRange (fr f) (fr t)
  | RangeOrCell.NonContiguous ms =>
      RangeOrCell.NonContiguous (ms.attach.map (fun m => m.1.mapColRow fc fr))
decreasing_by
  simp_wf
  have := List.sizeOf_lt_of_mem m.2
  omega

/-- Modelled from the spec: `A1::shift_right(n)` — every column index moves
right by `n`; absolute flags, shape and sheet name are untouched. -/
def A1.shift_right (a : A1) (n : Nat) : A1 :=
  { a with reference :=
      a.reference.mapColRow (fun c => { c with x := c.x + n }) (fun r => r) }

/-- Modelled from the spec: `A1::shift_left(n)` — every column index moves
left by `n`, saturating at zero. -/
def A1.shift_left (a : A1) (n : Nat) : A1 :=
  { a with reference :=
      a.reference.mapColRow (fun c => { c with x := c.x - n }) (fun r => r) }

/-- Modelled from the spec: `A1::shift_down(n)` — every row index moves down
by `n`. -/
def A1.shift_down (a : A1) (n : Nat) : A1 :=
  { a with reference :=
      a.reference.mapColRow (fun c => c) (fun r => { r with y := r.y + n }) }

/-- Modelled from the spec: `A1::shift_up(n)` — every row index moves up by
`n`, saturating at zero. -/
def A1.shift_up (a : A1) (n : Nat) : A1 :=
  { a with reference :=
      a.reference.mapColRow (fun c => c) (fun r => { r with y := r.y - n }) }

/-! ## Iteration (modelled from the spec, section 4.6) -/

/-- The ascending list of naturals from `a` to `b`, inclusive. -/
def natRange (a b : Nat) : List Nat := List.range' a (b + 1 - a)

/-- Modelled from the spec: iteration over a reference: a cell yields itself;
a column/row range yields one degenerate column/row per index, ascending; a
rectangle yields one cell per coordinate in row-major order; a
`NonContiguous` concatenates its members' sequences in stored order. -/
def RangeOrCell.iter : RangeOrCell → List RangeOrCell
  | RangeOrCell.Cell a => [RangeOrCell.Cell a]
  | RangeOrCell.Range f t =>
      (natRange (min f.row.y t.row.y) (max f.row.y t.row.y)).flatMap (fun y =>
        (natRange (min f.column.x t.column.x) (max f.column.x t.column.x)).map (fun x =>
          RangeOrCell.Cell (Address.new x y)))
  | RangeOrCell.ColumnRange f t =>
      (natRange (min f.x t.x) (max f.x t.x)).map (fun x => RangeOrCell.column x)
  | RangeOrCell.RowRange f t =>
      (natRange (min f.y t.y) (max f.y t.y)).map (fun y => RangeOrCell.row y)
  | RangeOrCell.NonContiguous ms => ms.attach.flatMap (fun m => m.1.iter)
decreasing_by
  simp_wf
  have := List.sizeOf_lt_of_mem m.2
  omega

/-- Modelled from the spec: `A1::iter` — iterate the reference, each element
carrying the same sheet name. -/
def A1.iter (a : A1) : List A1 :=
  a.reference.iter.map (fun r => { sheet_name := a.sheet_name, reference := r })

/-- `true` exactly on the `NonContiguous` variant. -/
def RangeOrCell.isNC : RangeOrCell → Bool
  | RangeOrCell.NonContiguous _ => true
  | _ => false

/-! ## Helper lemmas about `List.attach` -/

theorem attach_all {α : Type} (l : List α) (p : α → Bool) :
    (l.attach.all fun m => p m.1) = l.all p := by
  rw [Bool.eq_iff_iff, List.all_eq_true, List.all_eq_true]
  constructor
  · intro h a ha
    exact h ⟨a, ha⟩ (List.mem_attach l ⟨a, ha⟩)
  · intro h m _
    exact h m.1 m.2

theorem attach_any {α : Type} (l : List α) (p : α → Bool) :
    (l.attach.any fun m => p m.1) = l.any p := by
  rw [Bool.eq_iff_iff, List.any_eq_true, List.any_eq_true]
  constructor
  · rintro ⟨m, -, hp⟩
    exact ⟨m.1, m.2, hp⟩
  · rintro ⟨a, ha, hp⟩
    exact ⟨⟨a, ha⟩, List.mem_attach l ⟨a, ha⟩, hp⟩

theorem attach_flatMap {α β : Type} (l : List α) (g : α → List β) :
    (l.attach.flatMap fun m => g m.1) = l.flatMap g := by
  show (l.attach.map fun m => g m.1).flatten = (l.map g).flatten
  rw [List.attach_map_val]

/-! ## Column codec lemmas -/

theorem colVal_append_singleton (l : List Char) (c : Char) :
    colVal (l ++ [c]) = colVal l * 26 + (azIndex c + 1) := by
  simp [colVal, List.foldl_append]

/-- Every bijective base-26 digit letter decodes back to its index, is a
valid column character, and is canonical upper-case; all 26 cases checked. -/
theorem alphaChar_facts : ∀ i, i < 26 →
    azIndex (alphaChar i) = i ∧ isColChar (alphaChar i) = true ∧
    (alphaChar i).toUpper = alphaChar i ∧ isDecChar (alphaChar i) = false ∧
    alphaChar i ≠ ':' ∧ alphaChar i ≠ ',' ∧ alphaChar i ≠ '!' ∧
    alphaChar i ≠ '$' := by decide

/-- The lowercase image of every digit letter still decodes to its index. -/
theorem alphaChar_toLower_facts : ∀ i, i < 26 →
    azIndex (Char.toLower (alphaChar i)) = i ∧
    isColChar (Char.toLower (alphaChar i)) = true := by decide

theorem mem_encodeColAux (n : Nat) :
    ∀ c ∈ encodeColAux n, ∃ i, i < 26 ∧ c = alphaChar i := by
  induction n using Nat.strong_induction_on with
  | _ n ih =>
    rw [encodeColAux]
    split
    · intro c hc
      simp at hc
    · rename_i h
      intro c hc
      rcases List.mem_append.mp hc with h1 | h2
      · exact ih ((n - 1) / 26)
          (Nat.lt_of_le_of_lt (Nat.div_le_self _ _)
            (Nat.sub_lt (Nat.pos_of_ne_zero h) Nat.one_pos)) c h1
      · rcases List.mem_singleton.mp h2 with rfl
        exact ⟨(n - 1) % 26, Nat.mod_lt _ (by omega), rfl⟩

theorem colVal_encodeColAux_map (g : Char → Char)
    (hg : ∀ i, i < 26 → azIndex (g (alphaChar i)) = i ∧
          isColChar (g (alphaChar i)) = true) (n : Nat) :
    colVal ((encodeColAux n).map g) = n ∧
    ((encodeColAux n).map g).all isColChar = true := by
  induction n using Nat.strong_induction_on with
  | _ n ih =>
    rw [encodeColAux]
    split
    · rename_i h
      subst h
      simp [colVal]
    · rename_i h
      have hrec := ih ((n - 1) / 26)
        (Nat.lt_of_le_of_lt (Nat.div_le_self _ _)
          (Nat.sub_lt (Nat.pos_of_ne_zero h) Nat.one_pos))
      have hdig := hg ((n - 1) % 26) (Nat.mod_lt _ (by omega))
      constructor
      · rw [List.map_append, List.map_singleton, colVal_append_singleton,
            hrec.1, hdig.1]
        omega
      · rw [List.map_append, List.map_singleton, List.all_append, hrec.2]
        simp [hdig.2]

theorem colVal_encodeColChars (x : Nat) : colVal (encodeColChars x) = x + 1 := by
  have := colVal_encodeColAux_map id
    (fun i hi => by
      simpa using ⟨(alphaChar_facts i hi).1, (alphaChar_facts i hi).2.1⟩)
    (x + 1)
  simpa [encodeColChars] using this.1

theorem encodeColChars_all (x : Nat) :
    (encodeColChars x).all isColChar = true := by
  have := colVal_encodeColAux_map id
    (fun i hi => by
      simpa using ⟨(alphaChar_facts i hi).1, (alphaChar_facts i hi).2.1⟩)
    (x + 1)
  simpa [encodeColChars] using this.2

theorem encodeColChars_ne_nil (x : Nat) : encodeColChars x ≠ [] := by
  rw [encodeColChars, encodeColAux]
  simp

theorem decodeColChars_encode (x : Nat) :
    decodeColChars (encodeColChars x) = Except.ok x := by
  rw [decodeColChars, if_neg (encodeColChars_ne_nil x),
      if_pos (encodeColChars_all x), colVal_encodeColChars]
  norm_num

theorem decodeColChars_encode_toLower (x : Nat) :
    decodeColChars ((encodeColChars x).map Char.toLower) = Except.ok x := by
  have hmain := colVal_encodeColAux_map Char.toLower
    (fun i hi => ⟨(alphaChar_toLower_facts i hi).1, (alphaChar_toLower_facts i hi).2⟩)
    (x + 1)
  have hne : (encodeColChars x).map Char.toLower ≠ [] := by
    intro h
    exact encodeColChars_ne_nil x (List.map_eq_nil_iff.mp h)
  rw [decodeColChars, if_neg hne]
  rw [encodeColChars] at hne ⊢
  rw [if_pos hmain.2, hmain.1]
  norm_num

theorem decodeColChars_error (l : List Char)
    (h : l = [] ∨ l.all isColChar = false) :
    decodeColChars l = Except.error (Error.InvalidColumn (String.mk l)) := by
  rcases h with rfl | h
  · rfl
  · rw [decodeColChars]
    split
    · rfl
    · rw [if_neg]
      simp [h]

/-! ## Row codec lemmas -/

theorem decVal_append_singleton (l : List Char) (c : Char) :
    decVal (l ++ [c]) = decVal l * 10 + (c.toNat - 48) := by
  simp [decVal, List.foldl_append]

/-- Every decimal digit character decodes to its value, is a digit, is not a
column letter, and is none of the separator characters. -/
theorem decChar_facts : ∀ j, j < 10 →
    (decChar j).toNat - 48 = j ∧ isDecChar (decChar j) = true ∧
    isColChar (decChar j) = false ∧ decChar j ≠ ':' ∧ decChar j ≠ ',' ∧
    decChar j ≠ '!' ∧ decChar j ≠ '$' := by decide

theorem mem_natToDecAux (n : Nat) :
    ∀ c ∈ natToDecAux n, ∃ j, j < 10 ∧ c = decChar j := by
  induction n using Nat.strong_induction_on with
  | _ n ih =>
    rw [natToDecAux]
    split
    · intro c hc
      simp at hc
    · rename_i h
      intro c hc
      rcases List.mem_append.mp hc with h1 | h2
      · exact ih (n / 10) (Nat.div_lt_self (Nat.pos_of_ne_zero h) (by omega)) c h1
      · rcases List.mem_singleton.mp h2 with rfl
        exact ⟨n % 10, Nat.mod_lt _ (by omega), rfl⟩

theorem decVal_natToDecAux (n : Nat) :
    decVal (natToDecAux n) = n ∧ (natToDecAux n).all isDecChar = true := by
  induction n using Nat.strong_induction_on with
  | _ n ih =>
    rw [natToDecAux]
    split
    · rename_i h
      subst h
      simp [decVal]
    · rename_i h
      have hrec := ih (n / 10) (Nat.div_lt_self (Nat.pos_of_ne_zero h) (by omega))
      have hdig := decChar_facts (n % 10) (Nat.mod_lt _ (by omega))
      constructor
      · rw [decVal_append_singleton, hrec.1, hdig.1]
        omega
      · rw [List.all_append, hrec.2]
        simp [hdig.2.1]

theorem natToDecAux_ne_nil (n : Nat) (h : n ≠ 0) : natToDecAux n ≠ [] := by
  rw [natToDecAux, dif_neg h]
  simp

theorem natToDecAux_head_ne_zero (n : Nat) :
    (natToDecAux n).head? ≠ some (decChar 0) := by
  induction n using Nat.strong_induction_on with
  | _ n ih =>
    rw [natToDecAux]
    split
    · simp
    · rename_i h
      rw [List.head?_append]
      by_cases h10 : n / 10 = 0
      · rw [h10]
        have hz : natToDecAux 0 = [] := by rw [natToDecAux]; simp
        rw [hz]
        have : n % 10 = n := Nat.mod_eq_of_lt (by omega)
        simp only [List.head?_nil, Option.none_or, List.head?_cons]
        intro hc
        have hd : ∀ m, m < 10 → m ≠ 0 → decChar m ≠ decChar 0 := by decide
        exact hd (n % 10) (Nat.mod_lt _ (by omega)) (by omega)
          (Option.some.inj hc)
      · have hne := natToDecAux_ne_nil (n / 10) h10
        have ihr := ih (n / 10) (Nat.div_lt_self (Nat.pos_of_ne_zero h) (by omega))
        rcases List.exists_cons_of_ne_nil hne with ⟨b, L, hbl⟩
        rw [hbl] at ihr ⊢
        simpa using ihr

theorem decVal_encodeRowChars (y : Nat) : decVal (encodeRowChars y) = y + 1 :=
  (decVal_natToDecAux (y + 1)).1

theorem encodeRowChars_all (y : Nat) :
    (encodeRowChars y).all isDecChar = true :=
  (decVal_natToDecAux (y + 1)).2

theorem encodeRowChars_ne_nil (y : Nat) : encodeRowChars y ≠ [] :=
  natToDecAux_ne_nil (y + 1) (by omega)

theorem decodeRowChars_encode (y : Nat) :
    decodeRowChars (encodeRowChars y) = Except.ok y := by
  rw [decodeRowChars, if_neg (encodeRowChars_ne_nil y),
      if_pos (encodeRowChars_all y), decVal_encodeRowChars,
      if_neg (by omega : ¬(y + 1 = 0))]
  simp

theorem decodeRowChars_ok_iff (l : List Char) (y : Nat) :
    decodeRowChars l = Except.ok y ↔
      (l ≠ [] ∧ l.all isDecChar = true ∧ decVal l = y + 1) := by
  rw [decodeRowChars]
  split
  · rename_i h
    simp [h]
  · rename_i h
    split
    · rename_i hall
      split
      · rename_i hzero
        simp only [hall, hzero]
        constructor
        · intro hc
          cases hc
        · rintro ⟨-, -, hv⟩
          omega
      · rename_i hzero
        constructor
        · intro hc
          have hv := Except.ok.inj hc
          exact ⟨h, hall, by omega⟩
        · rintro ⟨-, -, hv⟩
          have hy : decVal l - 1 = y := by omega
          rw [hy]
    · rename_i hall
      simp only [Bool.not_eq_true] at hall
      simp [hall]

theorem decodeRowChars_error_iff (l : List Char) :
    decodeRowChars l = Except.error (Error.InvalidRow (String.mk l)) ↔
      (l = [] ∨ l.all isDecChar = false ∨ decVal l = 0) := by
  rw [decodeRowChars]
  split
  · rename_i h
    simp [h]
  · rename_i h
    split
    · rename_i hall
      split
      · rename_i hzero
        simp [hzero]
      · rename_i hzero
        simp [h, hall, hzero]
    · rename_i hall
      simp only [Bool.not_eq_true] at hall
      simp [h, hall]

/-! ## Splitting and scanning lemmas -/

theorem takeWhile_append_of_all {p : Char → Bool} (l1 l2 : List Char)
    (h : ∀ a ∈ l1, p a = true) :
    (l1 ++ l2).takeWhile p = l1 ++ l2.takeWhile p := by
  induction l1 with
  | nil => simp
  | cons a t ih =>
    simp only [List.cons_append, List.takeWhile_cons,
      h a (List.mem_cons_self a t), if_pos]
    rw [ih (fun b hb => h b (List.mem_cons_of_mem a hb))]

theorem dropWhile_append_of_all {p : Char → Bool} (l1 l2 : List Char)
    (h : ∀ a ∈ l1, p a = true) :
    (l1 ++ l2).dropWhile p = l2.dropWhile p := by
  induction l1 with
  | nil => simp
  | cons a t ih =>
    simp only [List.cons_append, List.dropWhile_cons,
      h a (List.mem_cons_self a t), if_pos]
    exact ih (fun b hb => h b (List.mem_cons_of_mem a hb))

theorem takeWhile_eq_self_of_all {p : Char → Bool} (l : List Char)
    (h : ∀ a ∈ l, p a = true) : l.takeWhile p = l := by
  have := takeWhile_append_of_all l [] h
  simpa using this

theorem dropWhile_eq_nil_of_all {p : Char → Bool} (l : List Char)
    (h : ∀ a ∈ l, p a = true) : l.dropWhile p = [] := by
  have := dropWhile_append_of_all l [] h
  simpa using this

theorem splitOnChar_ne_nil (c : Char) (l : List Char) :
    splitOnChar c l ≠ [] := by
  cases l with
  | nil => simp [splitOnChar]
  | cons a rest =>
    cases h : splitOnChar c rest with
    | nil => simp [splitOnChar, h]
    | cons r rs =>
      by_cases hac : a = c <;> simp [splitOnChar, h, hac]

theorem splitOnChar_not_mem {c : Char} {l : List Char} (h : c ∉ l) :
    splitOnChar c l = [l] := by
  induction l with
  | nil => rfl
  | cons a rest ih =>
    have hne : a ≠ c := fun he => h (he ▸ List.mem_cons_self a rest)
    have hrest : c ∉ rest := fun hm => h (List.mem_cons_of_mem a hm)
    simp [splitOnChar, ih hrest, hne]

theorem splitOnChar_append {c : Char} {l1 : List Char} (l2 : List Char)
    (h : c ∉ l1) :
    splitOnChar c (l1 ++ c :: l2) = l1 :: splitOnChar c l2 := by
  induction l1 with
  | nil =>
    cases hs : splitOnChar c l2 with
    | nil => exact absurd hs (splitOnChar_ne_nil c l2)
    | cons r rs => simp [splitOnChar, hs]
  | cons a t ih =>
    have hne : a ≠ c := fun he => h (he ▸ List.mem_cons_self a t)
    have ht : c ∉ t := fun hm => h (List.mem_cons_of_mem a hm)
    cases hs : splitOnChar c (t ++ c :: l2) with
    | nil => exact absurd hs (splitOnChar_ne_nil c _)
    | cons r rs =>
      have := ih ht
      rw [hs] at this
      rcases List.cons.inj this with ⟨rfl, rfl⟩
      simp [splitOnChar, hs, hne]

theorem splitOnLast_not_mem {c : Char} {l : List Char} (h : c ∉ l) :
    splitOnLast c l = none := by
  induction l with
  | nil => rfl
  | cons a rest ih =>
    have hne : a ≠ c := fun he => h (he ▸ List.mem_cons_self a rest)
    have hrest : c ∉ rest := fun hm => h (List.mem_cons_of_mem a hm)
    simp [splitOnLast, ih hrest, hne]

theorem splitOnLast_some {c : Char} {l : List Char} {pre post : List Char}
    (h : splitOnLast c l = some (pre, post)) : c ∈ l := by
  induction l generalizing pre post with
  | nil => simp [splitOnLast] at h
  | cons a rest ih =>
    rw [splitOnLast] at h
    cases hs : splitOnLast c rest with
    | some p =>
      obtain ⟨p1, p2⟩ := p
      exact List.mem_cons_of_mem a (ih hs)
    | none =>
      rw [hs] at h
      by_cases hac : a = c
      · exact hac ▸ List.mem_cons_self a rest
      · simp [hac] at h

/-! ## Non-membership of separators in codec output -/

theorem encodeColChars_not_sep (x : Nat) :
    ':' ∉ encodeColChars x ∧ ',' ∉ encodeColChars x ∧
    '!' ∉ encodeColChars x := by
  refine ⟨fun hm => ?_, fun hm => ?_, fun hm => ?_⟩
  · rcases mem_encodeColAux (x + 1) _ hm with ⟨i, hi, he⟩
    exact (alphaChar_facts i hi).2.2.2.2.1 he.symm
  · rcases mem_encodeColAux (x + 1) _ hm with ⟨i, hi, he⟩
    exact (alphaChar_facts i hi).2.2.2.2.2.1 he.symm
  · rcases mem_encodeColAux (x + 1) _ hm with ⟨i, hi, he⟩
    exact (alphaChar_facts i hi).2.2.2.2.2.2.1 he.symm

theorem encodeRowChars_not_sep (y : Nat) :
    ':' ∉ encodeRowChars y ∧ ',' ∉ encodeRowChars y ∧
    '!' ∉ encodeRowChars y := by
  refine ⟨fun hm => ?_, fun hm => ?_, fun hm => ?_⟩
  · rcases mem_natToDecAux (y + 1) _ hm with ⟨j, hj, he⟩
    exact (decChar_facts j hj).2.2.2.1 he.symm
  · rcases mem_natToDecAux (y + 1) _ hm with ⟨j, hj, he⟩
    exact (decChar_facts j hj).2.2.2.2.1 he.symm
  · rcases mem_natToDecAux (y + 1) _ hm with ⟨j, hj, he⟩
    exact (decChar_facts j hj).2.2.2.2.2.1 he.symm

/-! ## Parsing the formatter's output -/

theorem stripDollar_cons_ne (c : Char) (r : List Char) (h : c ≠ '$') :
    stripDollar (c :: r) = (false, c :: r) := by
  simp [stripDollar, h]

theorem stripDollar_colPre (x : Nat) (l2 : List Char) :
    stripDollar (encodeColChars x ++ l2) = (false, encodeColChars x ++ l2) := by
  rcases List.exists_cons_of_ne_nil (encodeColChars_ne_nil x) with ⟨c, rest, hL⟩
  have hc : c ∈ encodeColChars x := hL ▸ List.mem_cons_self c rest
  rcases mem_encodeColAux (x + 1) c hc with ⟨i, hi, rfl⟩
  rw [hL, List.cons_append]
  exact stripDollar_cons_ne _ _ (alphaChar_facts i hi).2.2.2.2.2.2.2

theorem stripDollar_rowPre (y : Nat) :
    stripDollar (encodeRowChars y) = (false, encodeRowChars y) := by
  rcases List.exists_cons_of_ne_nil (encodeRowChars_ne_nil y) with ⟨c, rest, hL⟩
  have hc : c ∈ encodeRowChars y := hL ▸ List.mem_cons_self c rest
  rcases mem_natToDecAux (y + 1) c hc with ⟨j, hj, rfl⟩
  rw [hL]
  exact stripDollar_cons_ne _ _ (decChar_facts j hj).2.2.2.2.2.2

theorem encodeRow_takeWhile_col (y : Nat) :
    (encodeRowChars y).takeWhile isColChar = [] := by
  rcases List.exists_cons_of_ne_nil (encodeRowChars_ne_nil y) with ⟨c, rest, hL⟩
  have hc : c ∈ encodeRowChars y := hL ▸ List.mem_cons_self c rest
  rcases mem_natToDecAux (y + 1) c hc with ⟨j, hj, rfl⟩
  rw [hL, List.takeWhile_cons, (decChar_facts j hj).2.2.1]
  simp

theorem encodeRow_dropWhile_col (y : Nat) :
    (encodeRowChars y).dropWhile isColChar = encodeRowChars y := by
  rcases List.exists_cons_of_ne_nil (encodeRowChars_ne_nil y) with ⟨c, rest, hL⟩
  have hc : c ∈ encodeRowChars y := hL ▸ List.mem_cons_self c rest
  rcases mem_natToDecAux (y + 1) c hc with ⟨j, hj, rfl⟩
  rw [hL, List.dropWhile_cons, (decChar_facts j hj).2.2.1]
  simp

theorem parsePart_encodeCol (x : Nat) :
    parsePart (encodeColChars x) = Except.ok (ParsedPart.PCol (Column.new x)) := by
  have h1 : stripDollar (encodeColChars x) = (false, encodeColChars x) := by
    have := stripDollar_colPre x []
    simpa using this
  have h2 := takeWhile_eq_self_of_all (encodeColChars x)
    (List.all_eq_true.mp (encodeColChars_all x))
  have h3 := dropWhile_eq_nil_of_all (encodeColChars x)
    (List.all_eq_true.mp (encodeColChars_all x))
  simp only [parsePart, h1, h2, h3]
  simp [stripDollar, encodeColChars_ne_nil x, decodeColChars_encode x, Column.new]
  rfl

theorem parsePart_encodeRow (y : Nat) :
    parsePart (encodeRowChars y) = Except.ok (ParsedPart.PRow (Row.new y)) := by
  have h1 := stripDollar_rowPre y
  have h2 := encodeRow_takeWhile_col y
  have h3 := encodeRow_dropWhile_col y
  have h4 := takeWhile_eq_self_of_all (encodeRowChars y)
    (List.all_eq_true.mp (encodeRowChars_all y))
  have h5 := dropWhile_eq_nil_of_all (encodeRowChars y)
    (List.all_eq_true.mp (encodeRowChars_all y))
  simp only [parsePart, h1, h2, h3, h4, h5]
  simp [stripDollar, encodeRowChars_ne_nil y, decodeRowChars_encode y, Row.new]
  rfl

theorem parsePart_encodeAddr (x y : Nat) :
    parsePart (encodeColChars x ++ encodeRowChars y) =
      Except.ok (ParsedPart.PAddr (Address.new x y)) := by
  have h1 := stripDollar_colPre x (encodeRowChars y)
  have h2 : (encodeColChars x ++ encodeRowChars y).takeWhile isColChar =
      encodeColChars x := by
    rw [takeWhile_append_of_all _ _ (List.all_eq_true.mp (encodeColChars_all x)),
        encodeRow_takeWhile_col y, List.append_nil]
  have h3 : (encodeColChars x ++ encodeRowChars y).dropWhile isColChar =
      encodeRowChars y := by
    rw [dropWhile_append_of_all _ _ (List.all_eq_true.mp (encodeColChars_all x)),
        encodeRow_dropWhile_col y]
  have h4 := stripDollar_rowPre y
  have h5 := takeWhile_eq_self_of_all (encodeRowChars y)
    (List.all_eq_true.mp (encodeRowChars_all y))
  have h6 := dropWhile_eq_nil_of_all (encodeRowChars y)
    (List.all_eq_true.mp (encodeRowChars_all y))
  simp only [parsePart, h1, h2, h3, h4, h5, h6]
  simp [stripDollar, encodeColChars_ne_nil x, encodeRowChars_ne_nil y,
        decodeColChars_encode x, decodeRowChars_encode y, Address.new,
        Column.new, Row.new]
  rfl

theorem parseToken_cell (x y : Nat) :
    parseToken (encodeColChars x ++ encodeRowChars y) =
      Except.ok (RangeOrCell.Cell (Address.new x y)) := by
  have hnc : ':' ∉ encodeColChars x ++ encodeRowChars y := by
    intro hm
    rcases List.mem_append.mp hm with h | h
    · exact (encodeColChars_not_sep x).1 h
    · exact (encodeRowChars_not_sep y).1 h
  rw [parseToken, splitOnChar_not_mem hnc]
  simp [parsePart_encodeAddr x y]

theorem parseToken_range (x1 y1 x2 y2 : Nat) :
    parseToken ((encodeColChars x1 ++ encodeRowChars y1) ++
        ':' :: (encodeColChars x2 ++ encodeRowChars y2)) =
      Except.ok (RangeOrCell.Range (Address.new x1 y1) (Address.new x2 y2)) := by
  have hn1 : ':' ∉ encodeColChars x1 ++ encodeRowChars y1 := by
    intro hm
    rcases List.mem_append.mp hm with h | h
    · exact (encodeColChars_not_sep x1).1 h
    · exact (encodeRowChars_not_sep y1).1 h
  have hn2 : ':' ∉ encodeColChars x2 ++ encodeRowChars y2 := by
    intro hm
    rcases List.mem_append.mp hm with h | h
    · exact (encodeColChars_not_sep x2).1 h
    · exact (encodeRowChars_not_sep y2).1 h
  rw [parseToken, splitOnChar_append _ hn1, splitOnChar_not_mem hn2]
  simp [parsePart_encodeAddr]

theorem parseToken_colRange (a b : Nat) :
    parseToken (encodeColChars a ++ ':' :: encodeColChars b) =
      Except.ok (RangeOrCell.ColumnRange (Column.new a) (Column.new b)) := by
  rw [parseToken, splitOnChar_append _ (encodeColChars_not_sep a).1,
      splitOnChar_not_mem (encodeColChars_not_sep b).1]
  simp [parsePart_encodeCol]

theorem parseToken_rowRange (a b : Nat) :
    parseToken (encodeRowChars a ++ ':' :: encodeRowChars b) =
      Except.ok (RangeOrCell.RowRange (Row.new a) (Row.new b)) := by
  rw [parseToken, splitOnChar_append _ (encodeRowChars_not_sep a).1,
      splitOnChar_not_mem (encodeRowChars_not_sep b).1]
  simp [parsePart_encodeRow]

theorem parseBody_single {l : List Char} {r : RangeOrCell}
    (hc : ',' ∉ l) (hr : parseToken l = Except.ok r) :
    parseBody l = Except.ok r := by
  rw [parseBody, splitOnChar_not_mem hc]
  simp [List.mapM, List.mapM.loop, hr]
  rfl

theorem parseA1_no_sheet {l : List Char} {r : RangeOrCell}
    (hb : '!' ∉ l) (hr : parseBody l = Except.ok r) :
    parseA1 (String.mk l) = Except.ok { sheet_name := none, reference := r } := by
  rw [parseA1]
  show (match splitOnLast '!' l with
    | some (pre, body) => _
    | none => _) = _
  rw [splitOnLast_not_mem hb]
  simp [hr]
  rfl

theorem formatColChars_new (x : Nat) :
    formatColChars (Column.new x) = encodeColChars x := by
  simp [formatColChars, Column.new]

theorem formatRowChars_new (y : Nat) :
    formatRowChars (Row.new y) = encodeRowChars y := by
  simp [formatRowChars, Row.new]

theorem formatAddrChars_new (x y : Nat) :
    formatAddrChars (Address.new x y) = encodeColChars x ++ encodeRowChars y := by
  simp [formatAddrChars, Address.new, formatColChars_new, formatRowChars_new]

theorem formatA1_no_sheet (r : RangeOrCell) :
    formatA1 { sheet_name := none, reference := r } =
      String.mk (formatRefChars r) := by
  simp [formatA1]

theorem formatRefChars_cell (a : Address) :
    formatRefChars (RangeOrCell.Cell a) = formatAddrChars a := by
  rw [formatRefChars]

theorem formatRefChars_range (f t : Address) :
    formatRefChars (RangeOrCell.Range f t) =
      formatAddrChars f ++ ':' :: formatAddrChars t := by
  rw [formatRefChars]

theorem formatRefChars_colRange (f t : Column) :
    formatRefChars (RangeOrCell.ColumnRange f t) =
      formatColChars f ++ ':' :: formatColChars t := by
  rw [formatRefChars]

theorem formatRefChars_rowRange (f t : Row) :
    formatRefChars (RangeOrCell.RowRange f t) =
      formatRowChars f ++ ':' :: formatRowChars t := by
  rw [formatRefChars]

theorem roundtrip_cell (x y : Nat) :
    parseA1 (formatA1 (cell x y)) = Except.ok (cell x y) := by
  show parseA1 (formatA1 ⟨none, RangeOrCell.Cell (Address.new x y)⟩) = _
  rw [formatA1_no_sheet, formatRefChars_cell, formatAddrChars_new]
  exact parseA1_no_sheet
    (fun hm => by
      rcases List.mem_append.mp hm with h | h
      · exact (encodeColChars_not_sep x).2.2 h
      · exact (encodeRowChars_not_sep y).2.2 h)
    (parseBody_single
      (fun hm => by
        rcases List.mem_append.mp hm with h | h
        · exact (encodeColChars_not_sep x).2.1 h
        · exact (encodeRowChars_not_sep y).2.1 h)
      (parseToken_cell x y))

theorem roundtrip_range (x1 y1 x2 y2 : Nat) :
    parseA1 (formatA1 (range (Address.new x1 y1) (Address.new x2 y2))) =
      Except.ok (range (Address.new x1 y1) (Address.new x2 y2)) := by
  show parseA1
    (formatA1 ⟨none, RangeOrCell.Range (Address.new x1 y1) (Address.new x2 y2)⟩) = _
  rw [formatA1_no_sheet, formatRefChars_range, formatAddrChars_new,
      formatAddrChars_new]
  exact parseA1_no_sheet
    (fun hm => by
      rcases List.mem_append.mp hm with h | h
      · rcases List.mem_append.mp h with h1 | h1
        · exact (encodeColChars_not_sep x1).2.2 h1
        · exact (encodeRowChars_not_sep y1).2.2 h1
      · rcases List.mem_cons.mp h with h1 | h1
        · exact absurd h1 (by decide)
        · rcases List.mem_append.mp h1 with h2 | h2
          · exact (encodeColChars_not_sep x2).2.2 h2
          · exact (encodeRowChars_not_sep y2).2.2 h2)
    (parseBody_single
      (fun hm => by
        rcases List.mem_append.mp hm with h | h
        · rcases List.mem_append.mp h with h1 | h1
          · exact (encodeColChars_not_sep x1).2.1 h1
          · exact (encodeRowChars_not_sep y1).2.1 h1
        · rcases List.mem_cons.mp h with h1 | h1
          · exact absurd h1 (by decide)
          · rcases List.mem_append.mp h1 with h2 | h2
            · exact (encodeColChars_not_sep x2).2.1 h2
            · exact (encodeRowChars_not_sep y2).2.1 h2)
      (parseToken_range x1 y1 x2 y2))

theorem roundtrip_column_range (a b : Nat) :
    parseA1 (formatA1 (column_range a b)) = Except.ok (column_range a b) := by
  show parseA1
    (formatA1 ⟨none, RangeOrCell.ColumnRange (Column.new a) (Column.new b)⟩) = _
  rw [formatA1_no_sheet, formatRefChars_colRange, formatColChars_new,
      formatColChars_new]
  exact parseA1_no_sheet
    (fun hm => by
      rcases List.mem_append.mp hm with h | h
      · exact (encodeColChars_not_sep a).2.2 h
      · rcases List.mem_cons.mp h with h1 | h1
        · exact absurd h1 (by decide)
        · exact (encodeColChars_not_sep b).2.2 h1)
    (parseBody_single
      (fun hm => by
        rcases List.mem_append.mp hm with h | h
        · exact (encodeColChars_not_sep a).2.1 h
        · rcases List.mem_cons.mp h with h1 | h1
          · exact absurd h1 (by decide)
          · exact (encodeColChars_not_sep b).2.1 h1)
      (parseToken_colRange a b))

theorem roundtrip_row_range (a b : Nat) :
    parseA1 (formatA1 (row_range a b)) = Except.ok (row_range a b) := by
  show parseA1
    (formatA1 ⟨none, RangeOrCell.RowRange (Row.new a) (Row.new b)⟩) = _
  rw [formatA1_no_sheet, formatRefChars_rowRange, formatRowChars_new,
      formatRowChars_new]
  exact parseA1_no_sheet
    (fun hm => by
      rcases List.mem_append.mp hm with h | h
      · exact (encodeRowChars_not_sep a).2.2 h
      · rcases List.mem_cons.mp h with h1 | h1
        · exact absurd h1 (by decide)
        · exact (encodeRowChars_not_sep b).2.2 h1)
    (parseBody_single
      (fun hm => by
        rcases List.mem_append.mp hm with h | h
        · exact (encodeRowChars_not_sep a).2.1 h
        · rcases List.mem_cons.mp h with h1 | h1
          · exact absurd h1 (by decide)
          · exact (encodeRowChars_not_sep b).2.1 h1)
      (parseToken_rowRange a b))

theorem roundtrip_column (x : Nat) :
    parseA1 (formatA1 (column x)) = Except.ok (column x) :=
  roundtrip_column_range x x

theorem roundtrip_row (y : Nat) :
    parseA1 (formatA1 (row y)) = Except.ok (row y) :=
  roundtrip_row_range y y

theorem parseA1_sheet_some_mem {s : String} {a : A1} {nm : String}
    (hp : parseA1 s = Except.ok a) (hs : a.sheet_name = some nm) :
    '!' ∈ s.data := by
  rw [parseA1] at hp
  cases hsp : splitOnLast '!' s.data with
  | some p =>
    obtain ⟨p1, p2⟩ := p
    exact splitOnLast_some hsp
  | none =>
    rw [hsp] at hp
    cases hb : parseBody s.data with
    | error e =>
      rw [hb] at hp
      exact Except.noConfusion
        (show (Except.error e : Except Error A1) = Except.ok a from hp)
    | ok r =>
      rw [hb] at hp
      have ha : ({ sheet_name := none, reference := r } : A1) = a :=
        Except.ok.inj
          (show Except.ok ({ sheet_name := none, reference := r } : A1) =
            Except.ok a from hp)
      rw [← ha] at hs
      simp at hs

/-! ## Containment lemmas -/

theorem contains_inner_nc (o : RangeOrCell) (ms : List RangeOrCell) :
    o.contains (RangeOrCell.NonContiguous ms) =
      ms.all (fun m => o.contains m) := by
  rw [RangeOrCell.contains]
  exact attach_all ms (fun m => o.contains m)

theorem contains_cell_cell (a b : Address) :
    (RangeOrCell.Cell a).contains (RangeOrCell.Cell b) =
      decide (a.column.x = b.column.x ∧ a.row.y = b.row.y) := by
  rw [RangeOrCell.contains]

theorem contains_nc_not_nc (ms : List RangeOrCell) (inner : RangeOrCell)
    (h : inner.isNC = false) :
    (RangeOrCell.NonContiguous ms).contains inner =
      ms.any (fun m => m.contains inner) := by
  cases inner with
  | NonContiguous l => simp [RangeOrCell.isNC] at h
  | Cell a =>
    rw [RangeOrCell.contains]
    all_goals first
      | exact fun _ hx => RangeOrCell.noConfusion hx
      | exact attach_any ms (fun m => m.contains (RangeOrCell.Cell a))
  | Range f t =>
    rw [RangeOrCell.contains]
    all_goals first
      | exact fun _ hx => RangeOrCell.noConfusion hx
      | exact attach_any ms (fun m => m.contains (RangeOrCell.Range f t))
  | ColumnRange f t =>
    rw [RangeOrCell.contains]
    all_goals first
      | exact fun _ hx => RangeOrCell.noConfusion hx
      | exact attach_any ms (fun m => m.contains (RangeOrCell.ColumnRange f t))
  | RowRange f t =>
    rw [RangeOrCell.contains]
    all_goals first
      | exact fun _ hx => RangeOrCell.noConfusion hx
      | exact attach_any ms (fun m => m.contains (RangeOrCell.RowRange f t))

theorem sizeOf_pos_rangeOrCell (v : RangeOrCell) : 0 < sizeOf v := by
  cases v <;> simp_arith

theorem sizeOf_mem_nc {m : RangeOrCell} {ms : List RangeOrCell}
    (h : m ∈ ms) : sizeOf m < sizeOf (RangeOrCell.NonContiguous ms) := by
  have h1 := List.sizeOf_lt_of_mem h
  have h2 : sizeOf (RangeOrCell.NonContiguous ms) = 1 + sizeOf ms := by
    simp
  omega

theorem contains_atom_refl (v : RangeOrCell) (h : v.isNC = false) :
    v.contains v = true := by
  cases v with
  | NonContiguous ms => simp [RangeOrCell.isNC] at h
  | Cell a => rw [contains_cell_cell]; simp
  | Range f t =>
    rw [RangeOrCell.contains]
    all_goals first
      | exact fun _ hx => RangeOrCell.noConfusion hx
      | simp
  | ColumnRange f t =>
    rw [RangeOrCell.contains]
    all_goals first
      | exact fun _ hx => RangeOrCell.noConfusion hx
      | simp
  | RowRange f t =>
    rw [RangeOrCell.contains]
    all_goals first
      | exact fun _ hx => RangeOrCell.noConfusion hx
      | simp

theorem contains_nc_of_mem :
    ∀ (inner outer : RangeOrCell) (ms : List RangeOrCell),
      outer.contains inner = true → outer ∈ ms →
      (RangeOrCell.NonContiguous ms).contains inner = true := by
  have key : ∀ (n : Nat) (inner : RangeOrCell), sizeOf inner ≤ n →
      ∀ (outer : RangeOrCell) (ms : List RangeOrCell),
        outer.contains inner = true → outer ∈ ms →
        (RangeOrCell.NonContiguous ms).contains inner = true := by
    intro n
    induction n with
    | zero =>
      intro inner hle
      have := sizeOf_pos_rangeOrCell inner
      omega
    | succ n ih =>
      intro inner hle outer ms hc hm
      cases inner with
      | NonContiguous l =>
        rw [contains_inner_nc] at hc ⊢
        rw [List.all_eq_true] at hc ⊢
        intro m hml
        have hsz := sizeOf_mem_nc hml
        exact ih m (by omega) outer ms (hc m hml) hm
      | Cell a =>
        rw [contains_nc_not_nc ms (RangeOrCell.Cell a) rfl, List.any_eq_true]
        exact ⟨outer, hm, hc⟩
      | Range f t =>
        rw [contains_nc_not_nc ms (RangeOrCell.Range f t) rfl, List.any_eq_true]
        exact ⟨outer, hm, hc⟩
      | ColumnRange f t =>
        rw [contains_nc_not_nc ms (RangeOrCell.ColumnRange f t) rfl, List.any_eq_true]
        exact ⟨outer, hm, hc⟩
      | RowRange f t =>
        rw [contains_nc_not_nc ms (RangeOrCell.RowRange f t) rfl, List.any_eq_true]
        exact ⟨outer, hm, hc⟩
  exact fun inner => key (sizeOf inner) inner (Nat.le_refl _)

theorem contains_refl_ref : ∀ (v : RangeOrCell), v.contains v = true := by
  have key : ∀ (n : Nat) (v : RangeOrCell), sizeOf v ≤ n →
      v.contains v = true := by
    intro n
    induction n with
    | zero =>
      intro v hle
      have := sizeOf_pos_rangeOrCell v
      omega
    | succ n ih =>
      intro v hle
      cases v with
      | NonContiguous ms =>
        rw [contains_inner_nc, List.all_eq_true]
        intro m hm
        have hsz := sizeOf_mem_nc hm
        exact contains_nc_of_mem m m ms (ih m (by omega)) hm
      | Cell a => exact contains_atom_refl _ rfl
      | Range f t => exact contains_atom_refl _ rfl
      | ColumnRange f t => exact contains_atom_refl _ rfl
      | RowRange f t => exact contains_atom_refl _ rfl
  exact fun v => key (sizeOf v) v (Nat.le_refl _)

/-! ## Shift and iteration lemmas -/

theorem mapColRow_nc (fc : Column → Column) (fr : Row → Row)
    (ms : List RangeOrCell) :
    (RangeOrCell.NonContiguous ms).mapColRow fc fr =
      RangeOrCell.NonContiguous (ms.map (fun m => m.mapColRow fc fr)) := by
  rw [RangeOrCell.mapColRow]
  exact congrArg RangeOrCell.NonContiguous
    (List.attach_map_val ms (fun m => m.mapColRow fc fr))

theorem iter_nc (ms : List RangeOrCell) :
    (RangeOrCell.NonContiguous ms).iter = ms.flatMap RangeOrCell.iter := by
  rw [RangeOrCell.iter]
  exact attach_flatMap ms RangeOrCell.iter

theorem flatMap_range_length {α : Type} (g : Nat → Nat → α) :
    ∀ (m r c n : Nat),
      ((List.range' r m).flatMap
        (fun y => (List.range' c n).map (fun x => g x y))).length = m * n := by
  intro m
  induction m with
  | zero => intro r c n; simp
  | succ m ih =>
    intro r c n
    rw [List.range'_succ, List.flatMap_cons, List.length_append, ih]
    simp [Nat.succ_mul, Nat.add_comm]

theorem flatMap_range_getElem {α : Type} (g : Nat → Nat → α) :
    ∀ (m r c n i j : Nat), i < m → j < n →
      ((List.range' r m).flatMap
        (fun y => (List.range' c n).map (fun x => g x y)))[i * n + j]? =
        some (g (c + j) (r + i)) := by
  intro m
  induction m with
  | zero => intro r c n i j hi; omega
  | succ m ih =>
    intro r c n i j hi hj
    rw [List.range'_succ, List.flatMap_cons, List.getElem?_append]
    cases i with
    | zero =>
      rw [if_pos (by simpa using by omega : 0 * n + j <
        ((List.range' c n).map (fun x => g x r)).length)]
      rw [show 0 * n + j = j by omega, List.getElem?_map,
        List.getElem?_range' c 1 hj]
      simp
    | succ i2 =>
      have hlen : ((List.range' c n).map (fun x => g x r)).length = n := by
        simp
      rw [if_neg (by rw [hlen]; nlinarith [Nat.succ_mul i2 n])]
      rw [hlen]
      have hidx : (i2 + 1) * n + j - n = i2 * n + j := by
        rw [Nat.succ_mul]
        omega
      rw [hidx, ih (r + 1) c n i2 j (by omega) hj]
      have : r + 1 + i2 = r + (i2 + 1) := by omega
      rw [this]

theorem iter_range (f t : Address) :
    (RangeOrCell.Range f t).iter =
      (natRange (min f.row.y t.row.y) (max f.row.y t.row.y)).flatMap (fun y =>
        (natRange (min f.column.x t.column.x)
          (max f.column.x t.column.x)).map (fun x =>
            RangeOrCell.Cell (Address.new x y))) := by
  rw [RangeOrCell.iter]

/-! ## The claims -/

/-- C1: for every A1 value built by the direct constructors `cell`, `range`,
`column`, `column_range`, `row`, `row_range` (zero-based integer arguments),
parsing the formatted string gives back the same value. -/
theorem claim_roundtrip_constructors :
    (∀ x y, parseA1 (formatA1 (cell x y)) = Except.ok (cell x y)) ∧
    (∀ x1 y1 x2 y2,
      parseA1 (formatA1 (range (Address.new x1 y1) (Address.new x2 y2))) =
        Except.ok (range (Address.new x1 y1) (Address.new x2 y2))) ∧
    (∀ x, parseA1 (formatA1 (column x)) = Except.ok (column x)) ∧
    (∀ a b, parseA1 (formatA1 (column_range a b)) = Except.ok (column_range a b)) ∧
    (∀ y, parseA1 (formatA1 (row y)) = Except.ok (row y)) ∧
    (∀ a b, parseA1 (formatA1 (row_range a b)) = Except.ok (row_range a b)) :=
  ⟨roundtrip_cell, roundtrip_range, roundtrip_column, roundtrip_column_range,
   roundtrip_row, roundtrip_row_range⟩

/-- C2: iterating a `Range` yields exactly one `Cell` per coordinate of the
normalized rectangle, `(|to.x-from.x|+1) * (|to.y-from.y|+1)` elements in
row-major order (rows outer and ascending, columns inner and ascending):
element `i*width + j` is the cell at column `cmin+j`, row `rmin+i`; e.g. the
rectangle A1:C3 iterates as A1,B1,C1,A2,B2,C2,A3,B3,C3. -/
theorem claim_range_iteration :
    (∀ f t : Address,
      (RangeOrCell.Range f t).iter.length =
        ((max f.column.x t.column.x - min f.column.x t.column.x) + 1) *
        ((max f.row.y t.row.y - min f.row.y t.row.y) + 1)) ∧
    (∀ (f t : Address) (i j : Nat),
      i ≤ max f.row.y t.row.y - min f.row.y t.row.y →
      j ≤ max f.column.x t.column.x - min f.column.x t.column.x →
      (RangeOrCell.Range f t).iter[i * ((max f.column.x t.column.x -
          min f.column.x t.column.x) + 1) + j]? =
        some (RangeOrCell.Cell (Address.new
          (min f.column.x t.column.x + j) (min f.row.y t.row.y + i)))) ∧
    ((RangeOrCell.Range (Address.new 0 0) (Address.new 2 2)).iter =
      [RangeOrCell.Cell (Address.new 0 0), RangeOrCell.Cell (Address.new 1 0),
       RangeOrCell.Cell (Address.new 2 0), RangeOrCell.Cell (Address.new 0 1),
       RangeOrCell.Cell (Address.new 1 1), RangeOrCell.Cell (Address.new 2 1),
       RangeOrCell.Cell (Address.new 0 2), RangeOrCell.Cell (Address.new 1 2),
       RangeOrCell.Cell (Address.new 2 2)]) := by
  refine ⟨?_, ?_, ?_⟩
  · intro f t
    have hc := min_le_max (a := f.column.x) (b := t.column.x)
    have hr := min_le_max (a := f.row.y) (b := t.row.y)
    rw [iter_range]
    simp only [natRange]
    rw [flatMap_range_length]
    have e1 : max f.row.y t.row.y + 1 - min f.row.y t.row.y =
        (max f.row.y t.row.y - min f.row.y t.row.y) + 1 := by omega
    have e2 : max f.column.x t.column.x + 1 - min f.column.x t.column.x =
        (max f.column.x t.column.x - min f.column.x t.column.x) + 1 := by omega
    rw [e1, e2, Nat.mul_comm]
  · intro f t i j hi hj
    have hc := min_le_max (a := f.column.x) (b := t.column.x)
    have hr := min_le_max (a := f.row.y) (b := t.row.y)
    rw [iter_range]
    simp only [natRange]
    have e2 : (max f.column.x t.column.x - min f.column.x t.column.x) + 1 =
        max f.column.x t.column.x + 1 - min f.column.x t.column.x := by omega
    rw [e2]
    exact flatMap_range_getElem _ _ _ _ _ _ _ (by omega) (by omega)
  · rw [iter_range]
    rfl

/-- C2 witness: the indexing law instantiated at the 1x1 rectangle A1:A1,
index (0,0). -/
theorem claim_range_iteration_witness :
    (RangeOrCell.Range (Address.new 0 0) (Address.new 0 0)).iter[
      0 * ((max (Address.new 0 0).column.x (Address.new 0 0).column.x -
        min (Address.new 0 0).column.x (Address.new 0 0).column.x) + 1) + 0]? =
      some (RangeOrCell.Cell (Address.new
        (min (Address.new 0 0).column.x (Address.new 0 0).column.x + 0)
        (min (Address.new 0 0).row.y (Address.new 0 0).row.y + 0))) :=
  claim_range_iteration.2.1 (Address.new 0 0) (Address.new 0 0) 0 0
    (Nat.zero_le _) (Nat.zero_le _)

/-- C3 counterexample: with `ms = [A1, B2]`, the union `NonContiguous ms`
contains itself (by the conjunctive inner rule), yet no single member of `ms`
contains it — so the disjunctive rule quantified over ALL inner references,
as the claim states it, is false when the inner reference is itself
`NonContiguous`. -/
theorem claim_nc_asymmetry_counterexample :
    RangeOrCell.contains
      (RangeOrCell.NonContiguous
        [RangeOrCell.Cell (Address.new 0 0), RangeOrCell.Cell (Address.new 1 1)])
      (RangeOrCell.NonContiguous
        [RangeOrCell.Cell (Address.new 0 0),
         RangeOrCell.Cell (Address.new 1 1)]) = true ∧
    ¬ (∃ m ∈ [RangeOrCell.Cell (Address.new 0 0),
        RangeOrCell.Cell (Address.new 1 1)],
      RangeOrCell.contains m
        (RangeOrCell.NonContiguous
          [RangeOrCell.Cell (Address.new 0 0),
           RangeOrCell.Cell (Address.new 1 1)]) = true) := by
  constructor
  · exact contains_refl_ref _
  · rintro ⟨m, hm, hc⟩
    rw [contains_inner_nc] at hc
    rcases List.mem_cons.mp hm with rfl | hm2
    · simp [List.all_cons, contains_cell_cell, Address.new, Column.new,
        Row.new] at hc
    · rcases List.mem_cons.mp hm2 with rfl | hm3
      · simp [List.all_cons, contains_cell_cell, Address.new, Column.new,
          Row.new] at hc
      · simp at hm3

/-- C3 amended: containment of a `NonContiguous` inner is conjunctive over
its members for every outer; containment by a `NonContiguous` outer is
disjunctive over its members for every inner that is not itself
`NonContiguous` (for a `NonContiguous` inner the conjunctive rule takes
precedence). -/
theorem claim_nc_asymmetry_amended :
    (∀ (outer : RangeOrCell) (ms : List RangeOrCell),
      outer.contains (RangeOrCell.NonContiguous ms) = true ↔
        ∀ m ∈ ms, outer.contains m = true) ∧
    (∀ (ms : List RangeOrCell) (inner : RangeOrCell), inner.isNC = false →
      ((RangeOrCell.NonContiguous ms).contains inner = true ↔
        ∃ m ∈ ms, m.contains inner = true)) := by
  constructor
  · intro outer ms
    rw [contains_inner_nc, List.all_eq_true]
  · intro ms inner h
    rw [contains_nc_not_nc ms inner h, List.any_eq_true]

/-- C3 witness: the disjunctive rule applied at a concrete non-NonContiguous
inner. -/
theorem claim_nc_asymmetry_witness :
    (RangeOrCell.NonContiguous [RangeOrCell.Cell (Address.new 0 0)]).contains
      (RangeOrCell.Cell (Address.new 0 0)) = true ↔
    ∃ m ∈ [RangeOrCell.Cell (Address.new 0 0)],
      m.contains (RangeOrCell.Cell (Address.new 0 0)) = true :=
  claim_nc_asymmetry_amended.2 [RangeOrCell.Cell (Address.new 0 0)]
    (RangeOrCell.Cell (Address.new 0 0)) rfl

/-- C4: containment is reflexive: every A1 value contains itself, whatever
the variant of its reference. -/
theorem claim_contains_reflexive : ∀ (v : A1), v.contains v = true :=
  fun v => contains_refl_ref v.reference

/-- C5: the column codec is bijective base-26: decode inverts encode at every
index, lowercase input decodes the same, encoded output is canonical
upper-case `A`-`Z`, decode rejects empty or non-letter input with
`InvalidColumn`, and the landmark indices 0, 25, 26, 27, 701, 702 encode to
A, Z, AA, AB, ZZ, AAA. -/
theorem claim_column_codec :
    (∀ x, decodeColChars (encodeColChars x) = Except.ok x) ∧
    (∀ x, decodeColChars ((encodeColChars x).map Char.toLower) = Except.ok x) ∧
    (∀ x, ∀ c ∈ encodeColChars x, isColChar c = true ∧ c.toUpper = c) ∧
    (∀ l, l = [] ∨ l.all isColChar = false →
      decodeColChars l = Except.error (Error.InvalidColumn (String.mk l))) ∧
    encodeColChars 0 = ['A'] ∧ encodeColChars 25 = ['Z'] ∧
    encodeColChars 26 = ['A', 'A'] ∧ encodeColChars 27 = ['A', 'B'] ∧
    encodeColChars 701 = ['Z', 'Z'] ∧
    encodeColChars 702 = ['A', 'A', 'A'] := by
  refine ⟨decodeColChars_encode, decodeColChars_encode_toLower, ?_,
    decodeColChars_error, ?_, ?_, ?_, ?_, ?_, ?_⟩
  · intro x c hc
    rcases mem_encodeColAux (x + 1) c hc with ⟨i, hi, rfl⟩
    exact ⟨(alphaChar_facts i hi).2.1, (alphaChar_facts i hi).2.2.1⟩
  all_goals simp [encodeColChars, encodeColAux, alphaChar, ALPHA]

/-- C5 witness: the failure rule applied to the empty input, and the
canonical-output rule applied to the letter of index 0. -/
theorem claim_column_codec_witness :
    decodeColChars [] = Except.error (Error.InvalidColumn (String.mk [])) ∧
    (isColChar 'A' = true ∧ Char.toUpper 'A' = 'A') := by
  refine ⟨claim_column_codec.2.2.2.1 [] (Or.inl rfl), ?_⟩
  have h0 : encodeColChars 0 = ['A'] := claim_column_codec.2.2.2.2.1
  exact claim_column_codec.2.2.1 0 'A' (h0 ▸ List.mem_singleton.mpr rfl)

/-- C6: the row codec renders the stored zero-based `y` as the decimal
string of `y+1` (all digits, non-empty, no leading zero, decimal value
`y+1`), decode inverts it storing `input - 1`, and decode yields `ok`
exactly on non-empty all-digit strings of positive value, failing with
`InvalidRow` exactly on empty, non-numeric or zero input. -/
theorem claim_row_codec :
    (∀ y, decVal (encodeRowChars y) = y + 1 ∧
      (encodeRowChars y).all isDecChar = true ∧ encodeRowChars y ≠ [] ∧
      (encodeRowChars y).head? ≠ some '0') ∧
    (∀ y, decodeRowChars (encodeRowChars y) = Except.ok y) ∧
    (∀ l y, decodeRowChars l = Except.ok y ↔
      (l ≠ [] ∧ l.all isDecChar = true ∧ decVal l = y + 1)) ∧
    (∀ l, decodeRowChars l = Except.error (Error.InvalidRow (String.mk l)) ↔
      (l = [] ∨ l.all isDecChar = false ∨ decVal l = 0)) := by
  refine ⟨?_, decodeRowChars_encode, decodeRowChars_ok_iff,
    decodeRowChars_error_iff⟩
  intro y
  refine ⟨decVal_encodeRowChars y, encodeRowChars_all y,
    encodeRowChars_ne_nil y, ?_⟩
  intro hc
  rw [show ('0' : Char) = decChar 0 from rfl] at hc
  exact natToDecAux_head_ne_zero (y + 1) hc

/-- C6 witness: "6" decodes to stored row 5, and "0" fails with
`InvalidRow`. -/
theorem claim_row_codec_witness :
    decodeRowChars ['6'] = Except.ok 5 ∧
    decodeRowChars ['0'] = Except.error (Error.InvalidRow (String.mk ['0'])) := by
  constructor
  · exact (claim_row_codec.2.2.1 ['6'] 5).mpr ⟨by decide, by decide, by decide⟩
  · exact (claim_row_codec.2.2.2 ['0']).mpr (Or.inr (Or.inr (by decide)))

/-- C7: each of the four shifts translates every column index
(`shift_right`/`shift_left`) or row index (`shift_down`/`shift_up`) by `n`
in its direction — leftward and upward via truncated subtraction, i.e.
saturating at zero — while the `absolute` flags, the variant shape and the
sheet name are unchanged, and a `NonContiguous` is shifted memberwise. -/
theorem claim_shift :
    ∀ (sh : Option String) (n : Nat) (b1 b2 b3 b4 : Bool)
      (x1 y1 x2 y2 : Nat) (ms : List RangeOrCell) (a : A1),
    (A1.shift_right ⟨sh, RangeOrCell.Cell ⟨⟨b1, x1⟩, ⟨b2, y1⟩⟩⟩ n =
      ⟨sh, RangeOrCell.Cell ⟨⟨b1, x1 + n⟩, ⟨b2, y1⟩⟩⟩) ∧
    (A1.shift_right ⟨sh, RangeOrCell.Range ⟨⟨b1, x1⟩, ⟨b2, y1⟩⟩
        ⟨⟨b3, x2⟩, ⟨b4, y2⟩⟩⟩ n =
      ⟨sh, RangeOrCell.Range ⟨⟨b1, x1 + n⟩, ⟨b2, y1⟩⟩
        ⟨⟨b3, x2 + n⟩, ⟨b4, y2⟩⟩⟩) ∧
    (A1.shift_right ⟨sh, RangeOrCell.ColumnRange ⟨b1, x1⟩ ⟨b2, x2⟩⟩ n =
      ⟨sh, RangeOrCell.ColumnRange ⟨b1, x1 + n⟩ ⟨b2, x2 + n⟩⟩) ∧
    (A1.shift_right ⟨sh, RangeOrCell.RowRange ⟨b1, y1⟩ ⟨b2, y2⟩⟩ n =
      ⟨sh, RangeOrCell.RowRange ⟨b1, y1⟩ ⟨b2, y2⟩⟩) ∧
    (A1.shift_left ⟨sh, RangeOrCell.Cell ⟨⟨b1, x1⟩, ⟨b2, y1⟩⟩⟩ n =
      ⟨sh, RangeOrCell.Cell ⟨⟨b1, x1 - n⟩, ⟨b2, y1⟩⟩⟩) ∧
    (A1.shift_left ⟨sh, RangeOrCell.Range ⟨⟨b1, x1⟩, ⟨b2, y1⟩⟩
        ⟨⟨b3, x2⟩, ⟨b4, y2⟩⟩⟩ n =
      ⟨sh, RangeOrCell.Range ⟨⟨b1, x1 - n⟩, ⟨b2, y1⟩⟩
        ⟨⟨b3, x2 - n⟩, ⟨b4, y2⟩⟩⟩) ∧
    (A1.shift_left ⟨sh, RangeOrCell.ColumnRange ⟨b1, x1⟩ ⟨b2, x2⟩⟩ n =
      ⟨sh, RangeOrCell.ColumnRange ⟨b1, x1 - n⟩ ⟨b2, x2 - n⟩⟩) ∧
    (A1.shift_left ⟨sh, RangeOrCell.RowRange ⟨b1, y1⟩ ⟨b2, y2⟩⟩ n =
      ⟨sh, RangeOrCell.RowRange ⟨b1, y1⟩ ⟨b2, y2⟩⟩) ∧
    (A1.shift_down ⟨sh, RangeOrCell.Cell ⟨⟨b1, x1⟩, ⟨b2, y1⟩⟩⟩ n =
      ⟨sh, RangeOrCell.Cell ⟨⟨b1, x1⟩, ⟨b2, y1 + n⟩⟩⟩) ∧
    (A1.shift_down ⟨sh, RangeOrCell.Range ⟨⟨b1, x1⟩, ⟨b2, y1⟩⟩
        ⟨⟨b3, x2⟩, ⟨b4, y2⟩⟩⟩ n =
      ⟨sh, RangeOrCell.Range ⟨⟨b1, x1⟩, ⟨b2, y1 + n⟩⟩
        ⟨⟨b3, x2⟩, ⟨b4, y2 + n⟩⟩⟩) ∧
    (A1.shift_down ⟨sh, RangeOrCell.ColumnRange ⟨b1, x1⟩ ⟨b2, x2⟩⟩ n =
      ⟨sh, RangeOrCell.ColumnRange ⟨b1, x1⟩ ⟨b2, x2⟩⟩) ∧
    (A1.shift_down ⟨sh, RangeOrCell.RowRange ⟨b1, y1⟩ ⟨b2, y2⟩⟩ n =
      ⟨sh, RangeOrCell.RowRange ⟨b1, y1 + n⟩ ⟨b2, y2 + n⟩⟩) ∧
    (A1.shift_up ⟨sh, RangeOrCell.Cell ⟨⟨b1, x1⟩, ⟨b2, y1⟩⟩⟩ n =
      ⟨sh, RangeOrCell.Cell ⟨⟨b1, x1⟩, ⟨b2, y1 - n⟩⟩⟩) ∧
    (A1.shift_up ⟨sh, RangeOrCell.Range ⟨⟨b1, x1⟩, ⟨b2, y1⟩⟩
        ⟨⟨b3, x2⟩, ⟨b4, y2⟩⟩⟩ n =
      ⟨sh, RangeOrCell.Range ⟨⟨b1, x1⟩, ⟨b2, y1 - n⟩⟩
        ⟨⟨b3, x2⟩, ⟨b4, y2 - n⟩⟩⟩) ∧
    (A1.shift_up ⟨sh, RangeOrCell.ColumnRange ⟨b1, x1⟩ ⟨b2, x2⟩⟩ n =
      ⟨sh, RangeOrCell.ColumnRange ⟨b1, x1⟩ ⟨b2, x2⟩⟩) ∧
    (A1.shift_up ⟨sh, RangeOrCell.RowRange ⟨b1, y1⟩ ⟨b2, y2⟩⟩ n =
      ⟨sh, RangeOrCell.RowRange ⟨b1, y1 - n⟩ ⟨b2, y2 - n⟩⟩) ∧
    ((A1.shift_right ⟨sh, RangeOrCell.NonContiguous ms⟩ n).reference =
      RangeOrCell.NonContiguous
        (ms.map (fun m => (A1.shift_right ⟨sh, m⟩ n).reference))) ∧
    ((A1.shift_left ⟨sh, RangeOrCell.NonContiguous ms⟩ n).reference =
      RangeOrCell.NonContiguous
        (ms.map (fun m => (A1.shift_left ⟨sh, m⟩ n).reference))) ∧
    ((A1.shift_down ⟨sh, RangeOrCell.NonContiguous ms⟩ n).reference =
      RangeOrCell.NonContiguous
        (ms.map (fun m => (A1.shift_down ⟨sh, m⟩ n).reference))) ∧
    ((A1.shift_up ⟨sh, RangeOrCell.NonContiguous ms⟩ n).reference =
      RangeOrCell.NonContiguous
        (ms.map (fun m => (A1.shift_up ⟨sh, m⟩ n).reference))) ∧
    ((a.shift_right n).sheet_name = a.sheet_name) ∧
    ((a.shift_left n).sheet_name = a.sheet_name) ∧
    ((a.shift_down n).sheet_name = a.sheet_name) ∧
    ((a.shift_up n).sheet_name = a.sheet_name) := by
  intro sh n b1 b2 b3 b4 x1 y1 x2 y2 ms a
  refine ⟨?_, ?_, ?_, ?_, ?_, ?_, ?_, ?_, ?_, ?_, ?_, ?_, ?_, ?_, ?_, ?_,
    ?_, ?_, ?_, ?_, ?_, ?_, ?_, ?_⟩
  all_goals
    simp [A1.shift_right, A1.shift_left, A1.shift_down, A1.shift_up,
      RangeOrCell.mapColRow, mapColRow_nc]

/-- C8: format, contains, the four shifts and iterate are total over every
already-valid A1 value: for all inputs each returns a result (in this
embedding all are plain functions into `String`, `Bool`, `A1` and
`List A1`, defined by terminating recursion, so a result always exists and
no failure is possible). -/
theorem claim_total_operations :
    ∀ (a b : A1) (n : Nat),
      (∃ s : String, formatA1 a = s) ∧ (∃ c : Bool, a.contains b = c) ∧
      (∃ r : A1, a.shift_right n = r) ∧ (∃ r : A1, a.shift_left n = r) ∧
      (∃ r : A1, a.shift_down n = r) ∧ (∃ r : A1, a.shift_up n = r) ∧
      (∃ l : List A1, a.iter = l) :=
  fun _ _ _ => ⟨⟨_, rfl⟩, ⟨_, rfl⟩, ⟨_, rfl⟩, ⟨_, rfl⟩, ⟨_, rfl⟩, ⟨_, rfl⟩,
    ⟨_, rfl⟩⟩

/-- C9: every direct constructor returns an `A1` whose `sheet_name` is
`none`, and a parse can only produce a sheet name when the input string
contains `!`. -/
theorem claim_sheet_name_none :
    (∀ x y, (cell x y).sheet_name = none) ∧
    (∀ f t, (range f t).sheet_name = none) ∧
    (∀ x, (column x).sheet_name = none) ∧
    (∀ a b, (column_range a b).sheet_name = none) ∧
    (∀ y, (row y).sheet_name = none) ∧
    (∀ a b, (row_range a b).sheet_name = none) ∧
    (∀ (s : String) (a : A1) (nm : String),
      parseA1 s = Except.ok a → a.sheet_name = some nm → '!' ∈ s.data) :=
  ⟨fun _ _ => rfl, fun _ _ => rfl, fun _ => rfl, fun _ _ => rfl,
   fun _ => rfl, fun _ _ => rfl,
   fun _ _ _ hp hs => parseA1_sheet_some_mem hp hs⟩

/-- C9 witness: the parse rule applied to "Foo!A1". -/
theorem claim_sheet_name_none_witness : '!' ∈ ("Foo!A1" : String).data :=
  claim_sheet_name_none.2.2.2.2.2.2 "Foo!A1"
    ⟨some "Foo", RangeOrCell.Cell (Address.new 0 0)⟩ "Foo" rfl rfl

/-- C10: a whole single column or row has no dedicated variant: `column x`
is the degenerate `ColumnRange` and `row y` the degenerate `RowRange` with
`from == to`, so they format with a colon — `column 5` as "F:F" and `row 5`
as "6:6". -/
theorem claim_degenerate_column_row :
    (∀ x, column x =
      ⟨none, RangeOrCell.ColumnRange (Column.new x) (Column.new x)⟩) ∧
    (∀ y, row y = ⟨none, RangeOrCell.RowRange (Row.new y) (Row.new y)⟩) ∧
    formatA1 (column 5) = "F:F" ∧ formatA1 (row 5) = "6:6" := by
  refine ⟨fun _ => rfl, fun _ => rfl, ?_, ?_⟩
  · show formatA1 ⟨none,
      RangeOrCell.ColumnRange (Column.new 5) (Column.new 5)⟩ = "F:F"
    rw [formatA1_no_sheet, formatRefChars_colRange, formatColChars_new]
    have h5 : encodeColChars 5 = ['F'] := by
      simp [encodeColChars, encodeColAux, alphaChar, ALPHA]
    rw [h5]
    rfl
  · show formatA1 ⟨none, RangeOrCell.RowRange (Row.new 5) (Row.new 5)⟩ = "6:6"
    rw [formatA1_no_sheet, formatRefChars_rowRange, formatRowChars_new]
    have h5 : encodeRowChars 5 = ['6'] := by
      simp [encodeRowChars, natToDecAux, decChar]
    rw [h5]
    rfl

end A1Lib
